import Mathlib

/-!
# Verification of the c-hashtable container

Shallow embedding of `src/include/hashtable.h` (the single-file hashtable
library, header plus implementation): a fixed-size chained hash table with
string keys, guarded by one binary semaphore.

Modelling choices, each tied to the source:

* A C string key is its list of bytes (`List Nat`; a byte of a C string is
  nonzero and `< 256`).
* A `void *` value pointer is `Option Nat`: `none` is the `NULL` pointer.
  When the table's `alloc` flag is set, `hashtable_add` stores a fresh
  heap copy of the caller's buffer; the copy has the same contents, so the
  abstract value stored is the caller's value in either mode.  Claims in
  this development never probe pointer identity of copies.
* Heap allocation can fail.  Each operation that allocates takes an oracle
  `List Bool` giving the outcome of its successive `malloc`/`strdup` calls,
  in program order; an exhausted oracle means success.
* The semaphore calls (`sem_wait`, `sem_post`, `sem_close`) are recorded as
  an event list in program order, one list per call, so the lock discipline
  of every exit path is visible in the result.
* `hashtable->size` is `table.length` (the bucket array and its recorded
  size always agree in the source).
-/

set_option autoImplicit false

namespace CHashtable

/-- A key: the bytes of a C string (each nonzero, `< 256`). -/
abbrev Key := List Nat

/-- `hashtable_element_t` (hashtable.h lines 101-105): key copy plus value
pointer.  The `next` link is represented by the position in the chain list. -/
structure Element where
  key : Key
  e : Option Nat
deriving Repr, DecidableEq

/-- `hashtable_t` (hashtable.h lines 110-116).  `table` is the bucket array,
each bucket the list of its chain's elements in link order; `size` is
`table.length`; `count` and `alloc` are the corresponding fields.  The
semaphore itself has no state worth recording (binary, never held across
calls); its operations are traced as events instead. -/
structure Hashtable where
  table : List (List Element)
  count : Nat
  alloc : Bool
deriving Repr, DecidableEq

/-- Semaphore events, in program order, of one public call. -/
inductive SemEv where
  | wait
  | post
  | close
deriving Repr, DecidableEq

/-- The value of one `char` of the key as read by `int c; c = *key++;`
(hashtable.c line 616): on the reference host `char` is signed, so a byte
`b ≥ 128` reads as `b - 256`. -/
def charOfByte (b : Nat) : Int :=
  if b < 128 then (b : Int) else (b : Int) - 256

/-- The djb2 loop of `hashtable_compute_hash` (hashtable.c lines 614-618):
`hash` is an `unsigned long` (64-bit on the reference host), updated by
`hash = ((hash << 5) + hash) + c` with wrapping arithmetic. -/
def hashLoop : Nat → Key → Nat
  | h, [] => h
  | h, c :: rest =>
      hashLoop (((((h <<< 5) + h : Nat) : Int) + charOfByte c) % ((2 ^ 64 : Nat) : Int)).toNat rest

/-- `hashtable_compute_hash` (hashtable.c lines 607-621): djb2 hash of the
key, taken modulo the bucket-array size. -/
def hashtable_compute_hash (ht : Hashtable) (key : Key) : Nat :=
  hashLoop 5381 key % ht.table.length

/-- `hashtable_create` (hashtable.c lines 251-278): `size` null bucket heads,
count 0, the `alloc` flag saved.  (Allocation failure of `create` itself
returns `NULL` and builds no table; no claim concerns it, so only the
successful result is modelled.) -/
def hashtable_create (size : Nat) (alloc : Bool) : Hashtable :=
  { table := List.replicate size [], count := 0, alloc := alloc }

/-- The bucket chain the operation on `key` scans: `hashtable->table[hash]`. -/
def bucketOf (ht : Hashtable) (key : Key) : List Element :=
  ht.table.getD (hashtable_compute_hash ht key) []

/-- The scan `while (NULL != curr) { if (!strcmp(curr->key, key)) ... }`
viewed as a predicate: some element of the chain has this key. -/
def chainHasKey (chain : List Element) (key : Key) : Bool :=
  chain.any fun el => el.key == key

/-- The update-in-place arm of `hashtable_add` (hashtable.c lines 303-325):
the first element whose key matches gets value `v`; the rest of the chain-- and every key -- is untouched. -/
def updateFirst (chain : List Element) (key : Key) (v : Option Nat) : List Element :=
  match chain with
  | [] => []
  | el :: rest =>
      if el.key == key then { el with e := v } :: rest
      else el :: updateFirst rest key v

/-- The bucket-array write `hashtable->table[hash] = ...` for the bucket of
`key`: the chain at the key's index replaced, everything else kept. -/
def setBucket (ht : Hashtable) (key : Key) (chain : List Element) : Hashtable :=
  { ht with table := ht.table.set (hashtable_compute_hash ht key) chain }

/-- `hashtable_add` (hashtable.c lines 288-370).  Returns the `int` result
(0 success, -1 failure), the table afterwards, and the semaphore trace.

Paths, in source order:
* key found, `alloc && e != NULL && size != 0`: the old owned value is freed
  and zeroed first (lines 306-309), then `malloc(size)` (oracle entry 0);
  on failure the call returns -1 with the entry's value left `NULL`
  (lines 311-315), on success the copy of `e` is stored.
* key found otherwise: the caller's pointer is stored verbatim (line 318).
* key absent: `malloc` of the element (oracle entry 0), `strdup` of the key
  (oracle entry 1), then, only when `alloc && e != NULL && size != 0`,
  `malloc` of the value copy (oracle entry 2); any failure frees what the
  call allocated and returns -1 with the table untouched (lines 328-352);
  on success the element is linked at the tail of the chain and `count`
  incremented (lines 358-364). -/
def hashtable_add (ht : Hashtable) (key : Key) (e : Option Nat) (size : Nat)
    (oracle : List Bool) : Int × Hashtable × List SemEv :=
  if chainHasKey (bucketOf ht key) key then
    if ht.alloc && e.isSome && (size != 0) then
      if oracle.getD 0 true then
        (0, setBucket ht key (updateFirst (bucketOf ht key) key e), [SemEv.wait, SemEv.post])
      else
        (-1, setBucket ht key (updateFirst (bucketOf ht key) key none), [SemEv.wait, SemEv.post])
    else
      (0, setBucket ht key (updateFirst (bucketOf ht key) key e), [SemEv.wait, SemEv.post])
  else if oracle.getD 0 true = false then
    (-1, ht, [SemEv.wait, SemEv.post])
  else if oracle.getD 1 true = false then
    (-1, ht, [SemEv.wait, SemEv.post])
  else if ht.alloc && e.isSome && (size != 0) then
    if oracle.getD 2 true = false then
      (-1, ht, [SemEv.wait, SemEv.post])
    else
      (0, { setBucket ht key (bucketOf ht key ++ [{ key := key, e := e }]) with count := ht.count + 1 },
       [SemEv.wait, SemEv.post])
  else
    (0, { setBucket ht key (bucketOf ht key ++ [{ key := key, e := e }]) with count := ht.count + 1 },
     [SemEv.wait, SemEv.post])

/-- `hashtable_get_count` (hashtable.c lines 377-394): reads `count` under
the lock. -/
def hashtable_get_count (ht : Hashtable) : Nat × List SemEv :=
  (ht.count, [SemEv.wait, SemEv.post])

/-- `hashtable_has_key` (hashtable.c lines 402-431): scans the key's bucket
chain under the lock. -/
def hashtable_has_key (ht : Hashtable) (key : Key) : Bool × List SemEv :=
  (chainHasKey (bucketOf ht key) key, [SemEv.wait, SemEv.post])

/-- The key walk of `hashtable_get_keys` (hashtable.c lines 460-467):
buckets in index order, each chain in link order. -/
def keysOfTable : List (List Element) → List Key
  | [] => []
  | chain :: rest => chain.map Element.key ++ keysOfTable rest

/-- All keys of the table, in the order `hashtable_get_keys` writes them. -/
def bucketKeys (ht : Hashtable) : List Key :=
  keysOfTable ht.table

/-- `hashtable_get_keys` (hashtable.c lines 439-475).  Returns the `count`
the function returns, the effect on the `keys` out-parameter, and the
semaphore trace.  The out-parameter effect is three-valued, because the
source assigns through `*keys` inside the if-condition
`if (NULL != (*keys = (char **)malloc(count * sizeof(char *))))` before
testing the result:
* `none`: nothing written (empty table -- the `0 < count` guard skips the
  `malloc` entirely);
* `some none`: `NULL` written (the `malloc` failed after the assignment,
  per `allocOk`);
* `some (some l)`: the allocated array written, then filled with the key
  walk `l` (buckets in index order, chains in link order). -/
def hashtable_get_keys (ht : Hashtable) (allocOk : Bool) :
    Nat × Option (Option (List Key)) × List SemEv :=
  if 0 < ht.count then
    if allocOk then (ht.count, some (some (bucketKeys ht)), [SemEv.wait, SemEv.post])
    else (ht.count, some none, [SemEv.wait, SemEv.post])
  else (ht.count, none, [SemEv.wait, SemEv.post])

/-- The scan of `hashtable_lookup` (hashtable.c lines 498-506): value of the
first matching element, `NULL` when the chain has none (the source cannot
distinguish an absent key from a stored `NULL` value). -/
def chainLookup (chain : List Element) (key : Key) : Option Nat :=
  match chain with
  | [] => none
  | el :: rest => if el.key == key then el.e else chainLookup rest key

/-- `hashtable_lookup` (hashtable.c lines 483-512). -/
def hashtable_lookup (ht : Hashtable) (key : Key) : Option Nat × List SemEv :=
  (chainLookup (bucketOf ht key) key, [SemEv.wait, SemEv.post])

/-- The unlink of `hashtable_remove` (hashtable.c lines 535-554): the first
matching element is taken out of the chain (predecessor relinked, or the
bucket head replaced) and its value returned; an absent key leaves the
chain as it was and yields `NULL`. -/
def chainRemove (chain : List Element) (key : Key) : Option Nat × List Element :=
  match chain with
  | [] => (none, [])
  | el :: rest =>
      if el.key == key then (el.e, rest)
      else
        let r := chainRemove rest key
        (r.1, el :: r.2)

/-- `hashtable_remove` (hashtable.c lines 520-560).  The matching element is
unlinked and freed and its value returned.  Note: the source never
decrements `hashtable->count` -- no `count--` appears anywhere in the
function -- so the modelled state keeps `count` unchanged as well. -/
def hashtable_remove (ht : Hashtable) (key : Key) : Option Nat × Hashtable × List SemEv :=
  ((chainRemove (bucketOf ht key) key).1,
   setBucket ht key (chainRemove (bucketOf ht key) key).2,
   [SemEv.wait, SemEv.post])

/-- `hashtable_release` (hashtable.c lines 566-599), non-null argument: the
walk frees every entry and the bucket array; afterwards no table state
remains, so only the semaphore trace (wait, post, then `sem_close`) is the
observable modelled. -/
def hashtable_release (_ht : Hashtable) : List SemEv :=
  [SemEv.wait, SemEv.post, SemEv.close]

/-- The hash as the spec's words state it, for comparison with the source's
`hashtable_compute_hash`: seed 5381, for each byte `c` of the key
`hash = hash * 33 + c`, wrapping unsigned arithmetic at the host's default
unsigned width (64 bits on the reference host). -/
def djb2_spec (key : List Nat) : Nat :=
  key.foldl (fun h c => (h * 33 + c) % 2 ^ 64) 5381

/-- Every key stored in bucket `i` hashes to `i`. -/
def BucketOk (ht : Hashtable) : Prop :=
  ∀ i k, k ∈ (ht.table.getD i []).map Element.key → hashtable_compute_hash ht k = i

/-- The structural invariant of a table: `count` equals the number of
entries reachable by walking all buckets, stored keys are pairwise
distinct, every entry sits in the bucket its key hashes to, and the
bucket array is non-empty (the documented `size >= 1` caller contract). -/
def Wf (ht : Hashtable) : Prop :=
  ht.count = (bucketKeys ht).length ∧ (bucketKeys ht).Nodup ∧ BucketOk ht ∧ 0 < ht.table.length

/-- Tables built from `hashtable_create` (with the documented `size >= 1`)
by successful `hashtable_add` calls only. -/
inductive ReachableAdd : Hashtable → Prop where
  | create (size : Nat) (alloc : Bool) (h : 1 ≤ size) :
      ReachableAdd (hashtable_create size alloc)
  | add (ht : Hashtable) (key : Key) (e : Option Nat) (size : Nat) (oracle : List Bool)
      (hr : ReachableAdd ht) (hok : (hashtable_add ht key e size oracle).1 = 0) :
      ReachableAdd (hashtable_add ht key e size oracle).2.1

/-! ## List-level helper lemmas -/

lemma getD_of_length_le (l : List (List Element)) (i : Nat) (h : l.length ≤ i) :
    l.getD i [] = [] := by
  induction l generalizing i with
  | nil => exact List.getD_nil
  | cons c rest ih =>
      match i with
      | 0 => exact absurd h (by simp)
      | j + 1 =>
          rw [List.getD_cons_succ]
          exact ih j (by simpa using h)

lemma lt_length_of_getD_ne_nil (l : List (List Element)) (i : Nat)
    (h : l.getD i [] ≠ []) : i < l.length := by
  by_contra hc
  exact h (getD_of_length_le l i (by omega))

lemma getD_set_self (l : List (List Element)) (i : Nat) (c : List Element)
    (h : i < l.length) : (l.set i c).getD i [] = c := by
  induction l generalizing i with
  | nil => simp at h
  | cons a rest ih =>
      match i with
      | 0 => rfl
      | j + 1 =>
          rw [List.set_cons_succ, List.getD_cons_succ]
          exact ih j (by simpa using h)

lemma getD_set_ne (l : List (List Element)) (i j : Nat) (c : List Element)
    (h : j ≠ i) : (l.set i c).getD j [] = l.getD j [] := by
  induction l generalizing i j with
  | nil => rfl
  | cons a rest ih =>
      match i, j with
      | 0, 0 => exact absurd rfl h
      | 0, _ + 1 => rfl
      | _ + 1, 0 => rfl
      | i' + 1, j' + 1 =>
          rw [List.set_cons_succ, List.getD_cons_succ, List.getD_cons_succ]
          exact ih i' j' (by omega)

lemma set_getD_self (l : List (List Element)) (i : Nat) :
    l.set i (l.getD i []) = l := by
  induction l generalizing i with
  | nil => rfl
  | cons a rest ih =>
      match i with
      | 0 => rfl
      | j + 1 => rw [List.getD_cons_succ, List.set_cons_succ, ih j]

/-! ## Chain-level helper lemmas -/

@[simp] lemma chainHasKey_nil (k : Key) : chainHasKey [] k = false := rfl

@[simp] lemma chainHasKey_cons (el : Element) (rest : List Element) (k : Key) :
    chainHasKey (el :: rest) k = ((el.key == k) || chainHasKey rest k) := rfl

@[simp] lemma chainLookup_nil (k : Key) : chainLookup [] k = none := rfl

@[simp] lemma chainLookup_cons (el : Element) (rest : List Element) (k : Key) :
    chainLookup (el :: rest) k = if el.key == k then el.e else chainLookup rest k := rfl

@[simp] lemma updateFirst_nil (k : Key) (v : Option Nat) : updateFirst [] k v = [] := rfl

@[simp] lemma updateFirst_cons (el : Element) (rest : List Element) (k : Key) (v : Option Nat) :
    updateFirst (el :: rest) k v =
      if el.key == k then { el with e := v } :: rest else el :: updateFirst rest k v := rfl

@[simp] lemma chainRemove_nil (k : Key) : chainRemove [] k = (none, []) := rfl

@[simp] lemma chainRemove_cons (el : Element) (rest : List Element) (k : Key) :
    chainRemove (el :: rest) k =
      if el.key == k then (el.e, rest)
      else ((chainRemove rest k).1, el :: (chainRemove rest k).2) := rfl

lemma chainHasKey_iff (chain : List Element) (k : Key) :
    chainHasKey chain k = true ↔ k ∈ chain.map Element.key := by
  induction chain with
  | nil => simp
  | cons el rest ih =>
      simp only [chainHasKey_cons, List.map_cons, List.mem_cons, Bool.or_eq_true, ih,
        beq_iff_eq]
      constructor
      · rintro (h | h)
        · exact Or.inl h.symm
        · exact Or.inr h
      · rintro (h | h)
        · exact Or.inl h.symm
        · exact Or.inr h

lemma updateFirst_map_key (chain : List Element) (k : Key) (v : Option Nat) :
    (updateFirst chain k v).map Element.key = chain.map Element.key := by
  induction chain with
  | nil => rfl
  | cons el rest ih =>
      rw [updateFirst_cons]
      by_cases h : (el.key == k) = true
      · rw [if_pos h]; rfl
      · rw [if_neg h, List.map_cons, List.map_cons, ih]

lemma chainLookup_updateFirst_self (chain : List Element) (k : Key) (v : Option Nat)
    (h : chainHasKey chain k = true) :
    chainLookup (updateFirst chain k v) k = v := by
  induction chain with
  | nil => simp at h
  | cons el rest ih =>
      rw [updateFirst_cons]
      by_cases he : (el.key == k) = true
      · rw [if_pos he]
        rw [chainLookup_cons]
        rw [show ({ el with e := v } : Element).key = el.key from rfl, if_pos he]
      · rw [if_neg he, chainLookup_cons, if_neg he]
        rw [chainHasKey_cons, Bool.eq_false_iff.mpr he, Bool.false_or] at h
        exact ih h

lemma chainLookup_updateFirst_ne (chain : List Element) (k k2 : Key) (v : Option Nat)
    (h : k2 ≠ k) :
    chainLookup (updateFirst chain k v) k2 = chainLookup chain k2 := by
  induction chain with
  | nil => rfl
  | cons el rest ih =>
      rw [updateFirst_cons]
      by_cases he : (el.key == k) = true
      · have hk : el.key = k := beq_iff_eq.mp he
        have h2 : (el.key == k2) = false :=
          beq_eq_false_iff_ne.mpr (by rw [hk]; exact fun hc => h hc.symm)
        rw [if_pos he, chainLookup_cons, chainLookup_cons,
          show ({ el with e := v } : Element).key = el.key from rfl, h2]
        rfl
      · rw [if_neg he, chainLookup_cons, chainLookup_cons]
        by_cases h2 : (el.key == k2) = true
        · rw [if_pos h2, if_pos h2]
        · rw [if_neg h2, if_neg h2, ih]

lemma chainHasKey_updateFirst (chain : List Element) (k k2 : Key) (v : Option Nat) :
    chainHasKey (updateFirst chain k v) k2 = chainHasKey chain k2 := by
  refine Bool.eq_iff_iff.mpr ?_
  rw [chainHasKey_iff, chainHasKey_iff, updateFirst_map_key]

lemma chainLookup_append_ne (chain : List Element) (k k2 : Key) (v : Option Nat)
    (h : k2 ≠ k) :
    chainLookup (chain ++ [{ key := k, e := v }]) k2 = chainLookup chain k2 := by
  induction chain with
  | nil =>
      have h2 : (({ key := k, e := v } : Element).key == k2) = false :=
        beq_eq_false_iff_ne.mpr (fun hc => h hc.symm)
      rw [List.nil_append, chainLookup_nil, chainLookup_cons, h2]
      rfl
  | cons el rest ih =>
      rw [List.cons_append, chainLookup_cons, chainLookup_cons]
      by_cases h2 : (el.key == k2) = true
      · rw [if_pos h2, if_pos h2]
      · rw [if_neg h2, if_neg h2, ih]

lemma chainHasKey_append_ne (chain : List Element) (k k2 : Key) (v : Option Nat)
    (h : k2 ≠ k) :
    chainHasKey (chain ++ [{ key := k, e := v }]) k2 = chainHasKey chain k2 := by
  have h2 : (({ key := k, e := v } : Element).key == k2) = false :=
    beq_eq_false_iff_ne.mpr (fun hc => h hc.symm)
  rw [chainHasKey, List.any_append]
  simp only [List.any_cons, List.any_nil, Bool.or_false, h2]
  rfl

lemma chainRemove_not_found (chain : List Element) (k : Key)
    (h : chainHasKey chain k = false) : chainRemove chain k = (none, chain) := by
  induction chain with
  | nil => rfl
  | cons el rest ih =>
      rw [chainHasKey_cons, Bool.or_eq_false_iff] at h
      rw [chainRemove_cons, if_neg (by rw [h.1]; exact Bool.false_ne_true), ih h.2]

lemma chainLookup_chainRemove_ne (chain : List Element) (k k2 : Key)
    (h : k2 ≠ k) :
    chainLookup (chainRemove chain k).2 k2 = chainLookup chain k2 := by
  induction chain with
  | nil => rfl
  | cons el rest ih =>
      rw [chainRemove_cons]
      by_cases he : (el.key == k) = true
      · have hk : el.key = k := beq_iff_eq.mp he
        have h2 : (el.key == k2) = false :=
          beq_eq_false_iff_ne.mpr (by rw [hk]; exact fun hc => h hc.symm)
        rw [if_pos he, chainLookup_cons, h2]
        rfl
      · rw [if_neg he, chainLookup_cons, chainLookup_cons]
        by_cases h2 : (el.key == k2) = true
        · rw [if_pos h2, if_pos h2]
        · rw [if_neg h2, if_neg h2, ih]

lemma chainHasKey_chainRemove_ne (chain : List Element) (k k2 : Key)
    (h : k2 ≠ k) :
    chainHasKey (chainRemove chain k).2 k2 = chainHasKey chain k2 := by
  induction chain with
  | nil => rfl
  | cons el rest ih =>
      rw [chainRemove_cons]
      by_cases he : (el.key == k) = true
      · have hk : el.key = k := beq_iff_eq.mp he
        have h2 : (el.key == k2) = false :=
          beq_eq_false_iff_ne.mpr (by rw [hk]; exact fun hc => h hc.symm)
        rw [if_pos he, chainHasKey_cons, h2, Bool.false_or]
      · rw [if_neg he, chainHasKey_cons, chainHasKey_cons, ih]

/-! ## Key-walk helper lemmas -/

@[simp] lemma keysOfTable_nil : keysOfTable [] = [] := rfl

@[simp] lemma keysOfTable_cons (chain : List Element) (rest : List (List Element)) :
    keysOfTable (chain :: rest) = chain.map Element.key ++ keysOfTable rest := rfl

lemma keysOfTable_replicate (n : Nat) : keysOfTable (List.replicate n []) = [] := by
  induction n with
  | zero => rfl
  | succ m ih => rw [List.replicate_succ, keysOfTable_cons, ih]; rfl

lemma keysOfTable_set_congr (l : List (List Element)) (i : Nat) (c : List Element)
    (h : c.map Element.key = (l.getD i []).map Element.key) :
    keysOfTable (l.set i c) = keysOfTable l := by
  induction l generalizing i with
  | nil => rfl
  | cons a rest ih =>
      match i with
      | 0 =>
          rw [List.getD_cons_zero] at h
          rw [List.set_cons_zero, keysOfTable_cons, keysOfTable_cons, h]
      | j + 1 =>
          rw [List.getD_cons_succ] at h
          rw [List.set_cons_succ, keysOfTable_cons, keysOfTable_cons, ih j h]

lemma keysOfTable_set_append_perm (l : List (List Element)) (i : Nat) (el : Element)
    (h : i < l.length) :
    List.Perm (keysOfTable (l.set i (l.getD i [] ++ [el]))) (el.key :: keysOfTable l) := by
  induction l generalizing i with
  | nil => simp at h
  | cons a rest ih =>
      match i with
      | 0 =>
          rw [List.set_cons_zero, List.getD_cons_zero, keysOfTable_cons, keysOfTable_cons,
            List.map_append]
          rw [show ([el].map Element.key) = [el.key] from rfl, List.append_assoc,
            List.singleton_append]
          exact List.perm_middle
      | j + 1 =>
          rw [List.set_cons_succ, List.getD_cons_succ, keysOfTable_cons, keysOfTable_cons]
          refine List.Perm.trans (List.Perm.append_left _ (ih j (by simpa using h))) ?_
          exact List.perm_middle

lemma mem_keysOfTable_iff (l : List (List Element)) (k : Key) :
    k ∈ keysOfTable l ↔ ∃ i, i < l.length ∧ k ∈ (l.getD i []).map Element.key := by
  induction l with
  | nil =>
      simp only [keysOfTable_nil, List.not_mem_nil, List.length_nil, false_iff]
      rintro ⟨i, hi, _⟩
      omega
  | cons a rest ih =>
      rw [keysOfTable_cons, List.mem_append, ih]
      constructor
      · rintro (h | ⟨i, hi, hm⟩)
        · exact ⟨0, by simp, by simpa using h⟩
        · exact ⟨i + 1, by simpa using hi, by simpa using hm⟩
      · rintro ⟨i, hi, hm⟩
        match i with
        | 0 => exact Or.inl (by simpa using hm)
        | j + 1 => exact Or.inr ⟨j, by simpa using hi, by simpa using hm⟩

/-! ## Table-level helper lemmas -/

@[simp] lemma setBucket_table_length (ht : Hashtable) (k : Key) (c : List Element) :
    (setBucket ht k c).table.length = ht.table.length := by
  rw [setBucket, List.length_set]

@[simp] lemma setBucket_count (ht : Hashtable) (k : Key) (c : List Element) :
    (setBucket ht k c).count = ht.count := rfl

@[simp] lemma setBucket_alloc (ht : Hashtable) (k : Key) (c : List Element) :
    (setBucket ht k c).alloc = ht.alloc := rfl

lemma compute_hash_setBucket (ht : Hashtable) (k1 : Key) (c : List Element) (k : Key) :
    hashtable_compute_hash (setBucket ht k1 c) k = hashtable_compute_hash ht k := by
  rw [hashtable_compute_hash, hashtable_compute_hash, setBucket_table_length]

lemma hash_lt_of_table_pos (ht : Hashtable) (k : Key) (h : 0 < ht.table.length) :
    hashtable_compute_hash ht k < ht.table.length :=
  Nat.mod_lt _ h

lemma table_nil_of_length_zero (ht : Hashtable) (h : ht.table.length = 0) :
    ht.table = [] :=
  List.length_eq_zero.mp h

lemma setBucket_of_table_nil (ht : Hashtable) (k : Key) (c : List Element)
    (h : ht.table = []) : setBucket ht k c = ht := by
  rw [setBucket, h, List.set_nil]
  rw [← h]

lemma bucketOf_of_table_nil (ht : Hashtable) (k : Key) (h : ht.table = []) :
    bucketOf ht k = [] := by
  rw [bucketOf, h, List.getD_nil]

lemma bucketOf_congr_hash (ht : Hashtable) (k1 k2 : Key)
    (h : hashtable_compute_hash ht k2 = hashtable_compute_hash ht k1) :
    bucketOf ht k2 = bucketOf ht k1 := by
  rw [bucketOf, bucketOf, h]

lemma bucketOf_setBucket_same (ht : Hashtable) (k1 k2 : Key) (c : List Element)
    (hpos : 0 < ht.table.length)
    (h : hashtable_compute_hash ht k2 = hashtable_compute_hash ht k1) :
    bucketOf (setBucket ht k1 c) k2 = c := by
  rw [bucketOf, compute_hash_setBucket, h, setBucket]
  exact getD_set_self _ _ _ (hash_lt_of_table_pos ht k1 hpos)

lemma bucketOf_setBucket_other (ht : Hashtable) (k1 k2 : Key) (c : List Element)
    (h : hashtable_compute_hash ht k2 ≠ hashtable_compute_hash ht k1) :
    bucketOf (setBucket ht k1 c) k2 = bucketOf ht k2 := by
  rw [bucketOf, compute_hash_setBucket, setBucket, bucketOf]
  exact getD_set_ne _ _ _ _ h

lemma setBucket_bucketOf_self (ht : Hashtable) (k : Key) :
    setBucket ht k (bucketOf ht k) = ht := by
  rw [setBucket, bucketOf, set_getD_self]

lemma bucketKeys_setBucket_congr (ht : Hashtable) (k : Key) (c : List Element)
    (h : c.map Element.key = (bucketOf ht k).map Element.key) :
    bucketKeys (setBucket ht k c) = bucketKeys ht := by
  rw [bucketKeys, bucketKeys, setBucket]
  exact keysOfTable_set_congr _ _ _ h

lemma bucketKeys_setBucket_append_perm (ht : Hashtable) (k : Key) (el : Element)
    (hpos : 0 < ht.table.length) :
    List.Perm (bucketKeys (setBucket ht k (bucketOf ht k ++ [el])))
      (el.key :: bucketKeys ht) := by
  rw [bucketKeys, bucketKeys, setBucket, bucketOf]
  exact keysOfTable_set_append_perm _ _ _ (hash_lt_of_table_pos ht k hpos)

/-! ## Projection lemmas for the public operations -/

@[simp] lemma hashtable_lookup_fst (ht : Hashtable) (k : Key) :
    (hashtable_lookup ht k).1 = chainLookup (bucketOf ht k) k := rfl

@[simp] lemma hashtable_has_key_fst (ht : Hashtable) (k : Key) :
    (hashtable_has_key ht k).1 = chainHasKey (bucketOf ht k) k := rfl

@[simp] lemma hashtable_get_count_fst (ht : Hashtable) :
    (hashtable_get_count ht).1 = ht.count := rfl

@[simp] lemma hashtable_remove_fst (ht : Hashtable) (k : Key) :
    (hashtable_remove ht k).1 = (chainRemove (bucketOf ht k) k).1 := rfl

@[simp] lemma hashtable_remove_state (ht : Hashtable) (k : Key) :
    (hashtable_remove ht k).2.1 = setBucket ht k (chainRemove (bucketOf ht k) k).2 := rfl

/-! ## Path characterization of `hashtable_add` -/

lemma add_ret_cases (ht : Hashtable) (key : Key) (e : Option Nat) (size : Nat)
    (oracle : List Bool) :
    (hashtable_add ht key e size oracle).1 = 0 ∨
      (hashtable_add ht key e size oracle).1 = -1 := by
  rw [hashtable_add]
  split
  · split
    · split
      · exact Or.inl rfl
      · exact Or.inr rfl
    · exact Or.inl rfl
  · split
    · exact Or.inr rfl
    · split
      · exact Or.inr rfl
      · split
        · split
          · exact Or.inr rfl
          · exact Or.inl rfl
        · exact Or.inl rfl

lemma add_found_succ (ht : Hashtable) (key : Key) (e : Option Nat) (size : Nat)
    (oracle : List Bool) (hf : chainHasKey (bucketOf ht key) key = true)
    (hr : (hashtable_add ht key e size oracle).1 = 0) :
    (hashtable_add ht key e size oracle).2.1 =
      setBucket ht key (updateFirst (bucketOf ht key) key e) := by
  rw [hashtable_add, if_pos hf] at hr ⊢
  by_cases hb : (ht.alloc && e.isSome && (size != 0)) = true
  · rw [if_pos hb] at hr ⊢
    by_cases ho : oracle.getD 0 true = true
    · rw [if_pos ho]
    · rw [if_neg ho] at hr
      simp at hr
  · rw [if_neg hb]

lemma add_found_fail (ht : Hashtable) (key : Key) (e : Option Nat) (size : Nat)
    (oracle : List Bool) (hf : chainHasKey (bucketOf ht key) key = true)
    (hr : (hashtable_add ht key e size oracle).1 = -1) :
    (hashtable_add ht key e size oracle).2.1 =
      setBucket ht key (updateFirst (bucketOf ht key) key none) := by
  rw [hashtable_add, if_pos hf] at hr ⊢
  by_cases hb : (ht.alloc && e.isSome && (size != 0)) = true
  · rw [if_pos hb] at hr ⊢
    by_cases ho : oracle.getD 0 true = true
    · rw [if_pos ho] at hr
      simp at hr
    · rw [if_neg ho]
  · rw [if_neg hb] at hr
    simp at hr

lemma add_notfound_fail (ht : Hashtable) (key : Key) (e : Option Nat) (size : Nat)
    (oracle : List Bool) (hf : chainHasKey (bucketOf ht key) key = false)
    (hr : (hashtable_add ht key e size oracle).1 = -1) :
    (hashtable_add ht key e size oracle).2.1 = ht := by
  rw [hashtable_add, if_neg (by rw [hf]; exact Bool.false_ne_true)] at hr ⊢
  by_cases h0 : oracle.getD 0 true = false
  · rw [if_pos h0]
  · rw [if_neg h0] at hr ⊢
    by_cases h1 : oracle.getD 1 true = false
    · rw [if_pos h1]
    · rw [if_neg h1] at hr ⊢
      by_cases hb : (ht.alloc && e.isSome && (size != 0)) = true
      · rw [if_pos hb] at hr ⊢
        by_cases h2 : oracle.getD 2 true = false
        · rw [if_pos h2]
        · rw [if_neg h2] at hr
          simp at hr
      · rw [if_neg hb] at hr
        simp at hr

lemma add_notfound_succ (ht : Hashtable) (key : Key) (e : Option Nat) (size : Nat)
    (oracle : List Bool) (hf : chainHasKey (bucketOf ht key) key = false)
    (hr : (hashtable_add ht key e size oracle).1 = 0) :
    (hashtable_add ht key e size oracle).2.1 =
      { setBucket ht key (bucketOf ht key ++ [{ key := key, e := e }]) with
        count := ht.count + 1 } := by
  rw [hashtable_add, if_neg (by rw [hf]; exact Bool.false_ne_true)] at hr ⊢
  by_cases h0 : oracle.getD 0 true = false
  · rw [if_pos h0] at hr
    simp at hr
  · rw [if_neg h0] at hr ⊢
    by_cases h1 : oracle.getD 1 true = false
    · rw [if_pos h1] at hr
      simp at hr
    · rw [if_neg h1] at hr ⊢
      by_cases hb : (ht.alloc && e.isSome && (size != 0)) = true
      · rw [if_pos hb] at hr ⊢
        by_cases h2 : oracle.getD 2 true = false
        · rw [if_pos h2] at hr
          simp at hr
        · rw [if_neg h2]
      · rw [if_neg hb]

/-! ## Frame lemmas: operations on one key leave other buckets and other
chain entries alone -/

lemma chainLookup_bucket_frame (ht : Hashtable) (k1 k2 : Key) (c : List Element)
    (h : chainLookup c k2 = chainLookup (bucketOf ht k1) k2) :
    chainLookup (bucketOf (setBucket ht k1 c) k2) k2 =
      chainLookup (bucketOf ht k2) k2 := by
  by_cases hpos : 0 < ht.table.length
  · by_cases hh : hashtable_compute_hash ht k2 = hashtable_compute_hash ht k1
    · rw [bucketOf_setBucket_same ht k1 k2 c hpos hh, h, bucketOf_congr_hash ht k1 k2 hh]
    · rw [bucketOf_setBucket_other ht k1 k2 c hh]
  · rw [setBucket_of_table_nil ht k1 c (table_nil_of_length_zero ht (by omega))]

lemma chainHasKey_bucket_frame (ht : Hashtable) (k1 k2 : Key) (c : List Element)
    (h : chainHasKey c k2 = chainHasKey (bucketOf ht k1) k2) :
    chainHasKey (bucketOf (setBucket ht k1 c) k2) k2 =
      chainHasKey (bucketOf ht k2) k2 := by
  by_cases hpos : 0 < ht.table.length
  · by_cases hh : hashtable_compute_hash ht k2 = hashtable_compute_hash ht k1
    · rw [bucketOf_setBucket_same ht k1 k2 c hpos hh, h, bucketOf_congr_hash ht k1 k2 hh]
    · rw [bucketOf_setBucket_other ht k1 k2 c hh]
  · rw [setBucket_of_table_nil ht k1 c (table_nil_of_length_zero ht (by omega))]

/-! ## The structural invariant and its preservation by successful adds -/

lemma getD_replicate_nil (n i : Nat) :
    (List.replicate n ([] : List Element)).getD i [] = [] := by
  induction n generalizing i with
  | zero => exact List.getD_nil
  | succ m ih =>
      match i with
      | 0 => rw [List.replicate_succ, List.getD_cons_zero]
      | j + 1 => rw [List.replicate_succ, List.getD_cons_succ, ih j]

lemma wf_create (size : Nat) (alloc : Bool) (h : 1 ≤ size) :
    Wf (hashtable_create size alloc) := by
  refine ⟨?_, ?_, ?_, ?_⟩
  · rw [hashtable_create, bucketKeys]
    rw [show ({ table := List.replicate size [], count := 0, alloc := alloc } :
      Hashtable).table = List.replicate size [] from rfl, keysOfTable_replicate]
    rfl
  · rw [hashtable_create, bucketKeys]
    rw [show ({ table := List.replicate size [], count := 0, alloc := alloc } :
      Hashtable).table = List.replicate size [] from rfl, keysOfTable_replicate]
    exact List.nodup_nil
  · intro i k hm
    rw [show (hashtable_create size alloc).table = List.replicate size [] from rfl,
      getD_replicate_nil] at hm
    simp at hm
  · rw [show (hashtable_create size alloc).table = List.replicate size [] from rfl,
      List.length_replicate]
    omega

lemma not_mem_bucketKeys_of_not_hasKey (ht : Hashtable) (k : Key)
    (hbo : BucketOk ht) (hf : chainHasKey (bucketOf ht k) k = false) :
    k ∉ bucketKeys ht := by
  intro hmem
  obtain ⟨i, _, hm⟩ := (mem_keysOfTable_iff ht.table k).mp hmem
  have hi := hbo i k hm
  rw [← hi] at hm
  have : chainHasKey (bucketOf ht k) k = true := (chainHasKey_iff _ _).mpr hm
  rw [hf] at this
  exact Bool.false_ne_true this

lemma mem_bucketKeys_of_hasKey (ht : Hashtable) (k : Key)
    (hpos : 0 < ht.table.length) (hf : chainHasKey (bucketOf ht k) k = true) :
    k ∈ bucketKeys ht :=
  (mem_keysOfTable_iff ht.table k).mpr
    ⟨hashtable_compute_hash ht k, hash_lt_of_table_pos ht k hpos,
      (chainHasKey_iff _ _).mp hf⟩

lemma bucketOk_setBucket_congr (ht : Hashtable) (k : Key) (c : List Element)
    (h : c.map Element.key = (bucketOf ht k).map Element.key) (hbo : BucketOk ht) :
    BucketOk (setBucket ht k c) := by
  intro i k2 hm
  rw [compute_hash_setBucket]
  rw [show (setBucket ht k c).table = ht.table.set (hashtable_compute_hash ht k) c
    from rfl] at hm
  by_cases hi : i = hashtable_compute_hash ht k
  · subst hi
    by_cases hpos : 0 < ht.table.length
    · rw [getD_set_self _ _ _ (hash_lt_of_table_pos ht k hpos), h] at hm
      exact hbo _ k2 hm
    · rw [table_nil_of_length_zero ht (by omega), List.set_nil, List.getD_nil] at hm
      simp at hm
  · rw [getD_set_ne _ _ _ _ hi] at hm
    exact hbo i k2 hm

lemma bucketOk_setBucket_append (ht : Hashtable) (k : Key) (v : Option Nat)
    (hbo : BucketOk ht) :
    BucketOk (setBucket ht k (bucketOf ht k ++ [{ key := k, e := v }])) := by
  intro i k2 hm
  rw [compute_hash_setBucket]
  rw [show (setBucket ht k (bucketOf ht k ++ [{ key := k, e := v }])).table
      = ht.table.set (hashtable_compute_hash ht k)
          (bucketOf ht k ++ [{ key := k, e := v }]) from rfl] at hm
  by_cases hi : i = hashtable_compute_hash ht k
  · subst hi
    by_cases hpos : 0 < ht.table.length
    · rw [getD_set_self _ _ _ (hash_lt_of_table_pos ht k hpos), List.map_append] at hm
      rcases List.mem_append.mp hm with hm | hm
      · exact hbo _ k2 hm
      · rw [show ([{ key := k, e := v }].map Element.key) = [k] from rfl] at hm
        rw [List.mem_singleton.mp hm]
    · rw [table_nil_of_length_zero ht (by omega), List.set_nil, List.getD_nil] at hm
      simp at hm
  · rw [getD_set_ne _ _ _ _ hi] at hm
    exact hbo i k2 hm

lemma wf_add (ht : Hashtable) (key : Key) (e : Option Nat) (size : Nat)
    (oracle : List Bool) (hwf : Wf ht)
    (hr : (hashtable_add ht key e size oracle).1 = 0) :
    Wf (hashtable_add ht key e size oracle).2.1 := by
  obtain ⟨hc, hnd, hbo, hpos⟩ := hwf
  by_cases hf : chainHasKey (bucketOf ht key) key = true
  · rw [add_found_succ ht key e size oracle hf hr]
    have hkeys : (updateFirst (bucketOf ht key) key e).map Element.key
        = (bucketOf ht key).map Element.key := updateFirst_map_key _ _ _
    refine ⟨?_, ?_, ?_, ?_⟩
    · rw [setBucket_count, bucketKeys_setBucket_congr ht key _ hkeys]
      exact hc
    · rw [bucketKeys_setBucket_congr ht key _ hkeys]
      exact hnd
    · exact bucketOk_setBucket_congr ht key _ hkeys hbo
    · rw [setBucket_table_length]
      exact hpos
  · have hf' : chainHasKey (bucketOf ht key) key = false := Bool.eq_false_iff.mpr hf
    rw [add_notfound_succ ht key e size oracle hf' hr]
    have hperm := bucketKeys_setBucket_append_perm ht key { key := key, e := e } hpos
    have hnotmem := not_mem_bucketKeys_of_not_hasKey ht key hbo hf'
    refine ⟨?_, ?_, ?_, ?_⟩
    · rw [show bucketKeys { setBucket ht key (bucketOf ht key ++ [{ key := key, e := e }])
          with count := ht.count + 1 }
        = bucketKeys (setBucket ht key (bucketOf ht key ++ [{ key := key, e := e }]))
        from rfl]
      rw [hperm.length_eq, List.length_cons, ← hc]
    · rw [show bucketKeys { setBucket ht key (bucketOf ht key ++ [{ key := key, e := e }])
          with count := ht.count + 1 }
        = bucketKeys (setBucket ht key (bucketOf ht key ++ [{ key := key, e := e }]))
        from rfl]
      exact hperm.symm.nodup (List.nodup_cons.mpr ⟨hnotmem, hnd⟩)
    · exact bucketOk_setBucket_append ht key e hbo
    · rw [show ({ setBucket ht key (bucketOf ht key ++ [{ key := key, e := e }])
          with count := ht.count + 1 } : Hashtable).table.length
        = (setBucket ht key (bucketOf ht key ++ [{ key := key, e := e }])).table.length
        from rfl, setBucket_table_length]
      exact hpos

lemma wf_reachable (ht : Hashtable) (h : ReachableAdd ht) : Wf ht := by
  induction h with
  | create size alloc h => exact wf_create size alloc h
  | add ht key e size oracle hr hok ih => exact wf_add ht key e size oracle ih hok

/-! ## Hash function versus the spec formula -/

lemma hashLoop_ascii (key : List Nat) (h : Nat) (hascii : ∀ b ∈ key, b < 128) :
    hashLoop h key = key.foldl (fun acc c => (acc * 33 + c) % 2 ^ 64) h := by
  induction key generalizing h with
  | nil => rfl
  | cons b rest ih =>
      rw [hashLoop, List.foldl_cons]
      have hb : b < 128 := hascii b (List.mem_cons_self b rest)
      have harg : (((((h <<< 5) + h : Nat) : Int) + charOfByte b) % ((2 ^ 64 : Nat) : Int)).toNat
          = (h * 33 + b) % 2 ^ 64 := by
        rw [charOfByte, if_pos hb]
        have hcast : (((h <<< 5) + h : Nat) : Int) + (b : Int) = ((h * 33 + b : Nat) : Int) := by
          rw [Nat.shiftLeft_eq]
          push_cast
          ring
        rw [hcast, ← Int.ofNat_emod, Int.toNat_ofNat]
      rw [harg]
      exact ih _ (fun x hx => hascii x (List.mem_cons_of_mem b hx))

/-! ## Settled claims -/

/-- C1: (code-bug evidence) removing a present key returns the stored value
reference and a subsequent lookup / has-key for it reports not-found, but
the table's count is NOT decremented: after inserting one key into a fresh
4-bucket table and removing it, `hashtable_get_count` still reports 1 while
the walk of all buckets finds no entry.  The struct's own documentation
(`count`: "Number of elements in the hashtable") requires 0. -/
theorem remove_returns_value_but_count_not_decremented :
    (hashtable_remove ((hashtable_add (hashtable_create 4 false) [97] (some 5) 1 []).2.1)
        [97]).1 = some 5 ∧
    (hashtable_lookup
        (hashtable_remove ((hashtable_add (hashtable_create 4 false) [97] (some 5) 1 []).2.1)
          [97]).2.1 [97]).1 = none ∧
    (hashtable_has_key
        (hashtable_remove ((hashtable_add (hashtable_create 4 false) [97] (some 5) 1 []).2.1)
          [97]).2.1 [97]).1 = false ∧
    (hashtable_get_count
        (hashtable_remove ((hashtable_add (hashtable_create 4 false) [97] (some 5) 1 []).2.1)
          [97]).2.1).1 = 1 := by decide

/-- C2: (code-bug evidence) the invariant "`count` equals the number of
entries reachable by walking all buckets" is preserved by `hashtable_add`
but violated by `hashtable_remove`, which unlinks the entry without
decrementing `count`: after add then remove on a fresh single-bucket table
the count is 1 while the bucket walk yields no key. -/
theorem count_invariant_violated_by_remove :
    ((hashtable_add (hashtable_create 1 true) [98] (some 7) 1 []).2.1.count = 1 ∧
      bucketKeys (hashtable_add (hashtable_create 1 true) [98] (some 7) 1 []).2.1 = [[98]]) ∧
    (hashtable_remove ((hashtable_add (hashtable_create 1 true) [98] (some 7) 1 []).2.1)
        [98]).2.1.count = 1 ∧
    bucketKeys (hashtable_remove
        ((hashtable_add (hashtable_create 1 true) [98] (some 7) 1 []).2.1) [98]).2.1 = [] := by
  decide

/-- C3: (counterexample) a failing `hashtable_add` does NOT always leave the
table unchanged: updating an existing key in owned mode frees the old value
before allocating the copy, so when that allocation fails the call returns
-1 and the key's stored value has become `NULL`, no longer the previous
`some 7`. -/
theorem add_update_failure_changes_state :
    (hashtable_add ((hashtable_add (hashtable_create 1 true) [97] (some 7) 1 []).2.1)
        [97] (some 9) 1 [false]).1 = -1 ∧
    (hashtable_lookup ((hashtable_add (hashtable_create 1 true) [97] (some 7) 1 []).2.1)
        [97]).1 = some 7 ∧
    (hashtable_lookup
        ((hashtable_add ((hashtable_add (hashtable_create 1 true) [97] (some 7) 1 []).2.1)
            [97] (some 9) 1 [false]).2.1) [97]).1 = none := by decide

/-- C6: (counterexample) the bucket index is NOT the spec's byte-valued djb2
for every key: the source reads key characters through (signed) `char`, so
the key consisting of the single byte 128 contributes `-128` instead of
`128`; on a 100-bucket table the code yields index 45 where the spec
formula yields 1. -/
theorem compute_hash_differs_from_byte_djb2 :
    hashtable_compute_hash (hashtable_create 100 false) [128]
      ≠ djb2_spec [128] % (hashtable_create 100 false).table.length := by decide

/-- C6 (amended): for every table with at least one bucket and every key
whose bytes are all below 128 (so that reading through signed `char` agrees
with the byte value), the bucket index is exactly the spec's djb2: seed
5381, `hash = hash * 33 + c` per byte with wrapping at the host's 64-bit
unsigned width, taken modulo the bucket count. -/
theorem compute_hash_signed_char_djb2 (ht : Hashtable) (key : List Nat)
    (hascii : ∀ b ∈ key, b < 128) (_hpos : 1 ≤ ht.table.length) :
    hashtable_compute_hash ht key = djb2_spec key % ht.table.length := by
  rw [hashtable_compute_hash, djb2_spec, hashLoop_ascii key 5381 hascii]

/-- C6 witness: the amended theorem applied to the ASCII key "hi" on a
10-bucket table. -/
theorem compute_hash_signed_char_djb2_witness :
    hashtable_compute_hash (hashtable_create 10 false) [104, 105]
      = djb2_spec [104, 105] % (hashtable_create 10 false).table.length :=
  compute_hash_signed_char_djb2 (hashtable_create 10 false) [104, 105]
    (by decide) (by decide)

/-- C7: removing an absent key returns the not-found sentinel (`NULL`) and
leaves the table completely unchanged: the whole state after the call --
count, every bucket chain, every stored value -- equals the state before. -/
theorem remove_absent_key_no_change (ht : Hashtable) (key : Key)
    (h : (hashtable_has_key ht key).1 = false) :
    (hashtable_remove ht key).1 = none ∧ (hashtable_remove ht key).2.1 = ht := by
  have hf : chainHasKey (bucketOf ht key) key = false := h
  have hcr := chainRemove_not_found _ _ hf
  constructor
  · rw [hashtable_remove_fst, hcr]
  · rw [hashtable_remove_state, hcr]
    exact setBucket_bucketOf_self ht key

/-- C7 witness: removing key "a" from a fresh 3-bucket table. -/
theorem remove_absent_key_no_change_witness :
    (hashtable_remove (hashtable_create 3 false) [97]).1 = none ∧
      (hashtable_remove (hashtable_create 3 false) [97]).2.1 = hashtable_create 3 false :=
  remove_absent_key_no_change (hashtable_create 3 false) [97] (by decide)

/-- C8: every public operation's semaphore trace is exactly one `sem_wait`
at the start followed by one `sem_post` before returning, on every path of
every operation (plus the final `sem_close` of `release`): the lock is
acquired at the start and released on every exit path, including the
early-return failure paths of `hashtable_add`. -/
theorem public_operations_lock_discipline :
    (∀ ht key e size oracle,
        (hashtable_add ht key e size oracle).2.2 = [SemEv.wait, SemEv.post]) ∧
    (∀ ht, (hashtable_get_count ht).2 = [SemEv.wait, SemEv.post]) ∧
    (∀ ht key, (hashtable_has_key ht key).2 = [SemEv.wait, SemEv.post]) ∧
    (∀ ht allocOk, (hashtable_get_keys ht allocOk).2.2 = [SemEv.wait, SemEv.post]) ∧
    (∀ ht key, (hashtable_lookup ht key).2 = [SemEv.wait, SemEv.post]) ∧
    (∀ ht key, (hashtable_remove ht key).2.2 = [SemEv.wait, SemEv.post]) ∧
    (∀ ht, hashtable_release ht = [SemEv.wait, SemEv.post, SemEv.close]) := by
  refine ⟨?_, fun ht => rfl, fun ht key => rfl, ?_, fun ht key => rfl,
    fun ht key => rfl, fun ht => rfl⟩
  · intro ht key e size oracle
    rw [hashtable_add]
    split
    · split
      · split
        · rfl
        · rfl
      · rfl
    · split
      · rfl
      · split
        · rfl
        · split
          · split
            · rfl
            · rfl
          · rfl
  · intro ht allocOk
    rw [hashtable_get_keys]
    split
    · split
      · rfl
      · rfl
    · rfl

/-- C9: (counterexample) when the key-array allocation fails on a non-empty
table, `hashtable_get_keys` does NOT leave the out-parameter untouched: the
source assigns the `malloc` result through `*keys` inside the if-condition
before testing it, so `NULL` is written.  On a one-entry table the failing
call still returns the stored count 1 and writes `NULL` through `keys`. -/
theorem get_keys_failure_writes_null :
    (hashtable_get_keys ((hashtable_add (hashtable_create 2 false) [97] (some 1) 0 []).2.1)
        false).2.1 = some none ∧
    (hashtable_get_keys ((hashtable_add (hashtable_create 2 false) [97] (some 1) 0 []).2.1)
        false).2.1 ≠ none ∧
    (hashtable_get_keys ((hashtable_add (hashtable_create 2 false) [97] (some 1) 0 []).2.1)
        false).1 = 1 := by decide

/-- C9 (amended): `hashtable_get_keys` always returns the table's stored
`count`, also when the internal allocation of the key array fails; on such
a failure it writes `NULL` through the `keys` out-parameter (the assignment
executes inside the if-condition before the test); on an empty table it
writes nothing; and the returned value never depends on whether the
allocation succeeded, so a caller cannot distinguish allocation failure
from success by the return value alone (only through the out-parameter). -/
theorem get_keys_count_and_out_param (ht : Hashtable) (allocOk : Bool) :
    (hashtable_get_keys ht allocOk).1 = ht.count ∧
    (0 < ht.count → (hashtable_get_keys ht false).2.1 = some none) ∧
    (ht.count = 0 → (hashtable_get_keys ht allocOk).2.1 = none) ∧
    (hashtable_get_keys ht allocOk).1 = (hashtable_get_keys ht true).1 := by
  refine ⟨?_, ?_, ?_, ?_⟩
  · rw [hashtable_get_keys]
    split
    · split
      · rfl
      · rfl
    · rfl
  · intro hc
    rw [hashtable_get_keys, if_pos hc, if_neg (by decide : ¬(false : Bool) = true)]
  · intro h0
    rw [hashtable_get_keys, if_neg (by omega)]
  · rw [hashtable_get_keys, hashtable_get_keys]
    by_cases hc : 0 < ht.count
    · rw [if_pos hc, if_pos hc]
      split
      · rfl
      · rfl
    · rw [if_neg hc, if_neg hc]

/-- C9 witness: on a fresh empty 3-bucket table the out-parameter is left
untouched even with a successful allocation. -/
theorem get_keys_count_and_out_param_witness :
    (hashtable_get_keys (hashtable_create 3 false) true).2.1 = none :=
  (get_keys_count_and_out_param (hashtable_create 3 false) true).2.2.1 rfl

@[simp] lemma bucketOf_count_update (ht : Hashtable) (n : Nat) (k : Key) :
    bucketOf { ht with count := n } k = bucketOf ht k := rfl

/-- C10: an add (successful or failing) or a remove on key `k1` never
changes what `hashtable_lookup` and `hashtable_has_key` report for a key
`k2` whose string contents differ: only the entry whose key equals the
argument is created, modified or unlinked. -/
theorem add_remove_frame_other_keys (ht : Hashtable) (k1 k2 : Key) (e : Option Nat)
    (size : Nat) (oracle : List Bool) (hne : k1 ≠ k2) :
    (hashtable_lookup (hashtable_add ht k1 e size oracle).2.1 k2).1
        = (hashtable_lookup ht k2).1 ∧
    (hashtable_has_key (hashtable_add ht k1 e size oracle).2.1 k2).1
        = (hashtable_has_key ht k2).1 ∧
    (hashtable_lookup (hashtable_remove ht k1).2.1 k2).1 = (hashtable_lookup ht k2).1 ∧
    (hashtable_has_key (hashtable_remove ht k1).2.1 k2).1 = (hashtable_has_key ht k2).1 := by
  have hne' : k2 ≠ k1 := fun hc => hne hc.symm
  refine ⟨?_, ?_, ?_, ?_⟩
  · rcases add_ret_cases ht k1 e size oracle with hr | hr
    · by_cases hf : chainHasKey (bucketOf ht k1) k1 = true
      · rw [add_found_succ ht k1 e size oracle hf hr, hashtable_lookup_fst,
          hashtable_lookup_fst]
        exact chainLookup_bucket_frame ht k1 k2 _ (chainLookup_updateFirst_ne _ _ _ _ hne')
      · rw [add_notfound_succ ht k1 e size oracle (Bool.eq_false_iff.mpr hf) hr,
          hashtable_lookup_fst, hashtable_lookup_fst, bucketOf_count_update]
        exact chainLookup_bucket_frame ht k1 k2 _ (chainLookup_append_ne _ _ _ _ hne')
    · by_cases hf : chainHasKey (bucketOf ht k1) k1 = true
      · rw [add_found_fail ht k1 e size oracle hf hr, hashtable_lookup_fst,
          hashtable_lookup_fst]
        exact chainLookup_bucket_frame ht k1 k2 _ (chainLookup_updateFirst_ne _ _ _ _ hne')
      · rw [add_notfound_fail ht k1 e size oracle (Bool.eq_false_iff.mpr hf) hr]
  · rcases add_ret_cases ht k1 e size oracle with hr | hr
    · by_cases hf : chainHasKey (bucketOf ht k1) k1 = true
      · rw [add_found_succ ht k1 e size oracle hf hr, hashtable_has_key_fst,
          hashtable_has_key_fst]
        exact chainHasKey_bucket_frame ht k1 k2 _ (chainHasKey_updateFirst _ _ _ _)
      · rw [add_notfound_succ ht k1 e size oracle (Bool.eq_false_iff.mpr hf) hr,
          hashtable_has_key_fst, hashtable_has_key_fst, bucketOf_count_update]
        exact chainHasKey_bucket_frame ht k1 k2 _ (chainHasKey_append_ne _ _ _ _ hne')
    · by_cases hf : chainHasKey (bucketOf ht k1) k1 = true
      · rw [add_found_fail ht k1 e size oracle hf hr, hashtable_has_key_fst,
          hashtable_has_key_fst]
        exact chainHasKey_bucket_frame ht k1 k2 _ (chainHasKey_updateFirst _ _ _ _)
      · rw [add_notfound_fail ht k1 e size oracle (Bool.eq_false_iff.mpr hf) hr]
  · rw [hashtable_lookup_fst, hashtable_lookup_fst, hashtable_remove_state]
    exact chainLookup_bucket_frame ht k1 k2 _ (chainLookup_chainRemove_ne _ _ _ hne')
  · rw [hashtable_has_key_fst, hashtable_has_key_fst, hashtable_remove_state]
    exact chainHasKey_bucket_frame ht k1 k2 _ (chainHasKey_chainRemove_ne _ _ _ hne')

/-- C10 witness: removing "a" from a fresh 2-bucket table leaves the lookup
of "b" unchanged. -/
theorem add_remove_frame_other_keys_witness :
    (hashtable_lookup (hashtable_remove (hashtable_create 2 false) [97]).2.1 [98]).1
      = (hashtable_lookup (hashtable_create 2 false) [98]).1 :=
  (add_remove_frame_other_keys (hashtable_create 2 false) [97] [98] none 0 []
    (by decide)).2.2.1

/-- C4: a successful add of a key already present updates the existing
entry in place: the key multiset of the whole table is unchanged (hence no
duplicate entry), the count is unchanged, and a subsequent lookup of that
key returns the value just stored. -/
theorem add_existing_key_updates_in_place (ht : Hashtable) (key : Key) (e : Option Nat)
    (size : Nat) (oracle : List Bool) (hk : (hashtable_has_key ht key).1 = true)
    (hr : (hashtable_add ht key e size oracle).1 = 0) :
    (hashtable_get_count (hashtable_add ht key e size oracle).2.1).1
        = (hashtable_get_count ht).1 ∧
    bucketKeys (hashtable_add ht key e size oracle).2.1 = bucketKeys ht ∧
    (hashtable_lookup (hashtable_add ht key e size oracle).2.1 key).1 = e := by
  have hf : chainHasKey (bucketOf ht key) key = true := hk
  rw [add_found_succ ht key e size oracle hf hr]
  refine ⟨rfl, ?_, ?_⟩
  · exact bucketKeys_setBucket_congr ht key _ (updateFirst_map_key _ _ _)
  · rw [hashtable_lookup_fst]
    by_cases hpos : 0 < ht.table.length
    · rw [bucketOf_setBucket_same ht key key _ hpos rfl]
      exact chainLookup_updateFirst_self _ _ _ hf
    · exfalso
      rw [bucketOf_of_table_nil ht key (table_nil_of_length_zero ht (by omega)),
        chainHasKey_nil] at hf
      exact Bool.false_ne_true hf

/-- C4 witness: inserting "a" twice into a 2-bucket table, the second time
with a new value; the lookup afterwards yields the new value. -/
theorem add_existing_key_updates_in_place_witness :
    (hashtable_lookup
        (hashtable_add ((hashtable_add (hashtable_create 2 false) [97] (some 1) 0 []).2.1)
          [97] (some 2) 0 []).2.1 [97]).1 = some 2 :=
  (add_existing_key_updates_in_place _ [97] (some 2) 0 [] (by decide) (by decide)).2.2

/-- C3 (amended): a failing `hashtable_add` releases everything it
allocated and leaves the count, the key set (the walk of all stored keys,
hence also `has_key` for every key -- in particular the argument key's
entry survives), and the value of every key other than the argument
untouched; when the argument key was absent the table is left exactly
unchanged; but when the argument key was present (the owned-mode value
update path) the failing call has already freed the old value, so the
key's stored value is left `NULL` rather than its previous value. -/
theorem add_failure_rollback_amended (ht : Hashtable) (key : Key) (e : Option Nat)
    (size : Nat) (oracle : List Bool)
    (hr : (hashtable_add ht key e size oracle).1 = -1) :
    ((hashtable_has_key ht key).1 = false → (hashtable_add ht key e size oracle).2.1 = ht) ∧
    (hashtable_add ht key e size oracle).2.1.count = ht.count ∧
    bucketKeys (hashtable_add ht key e size oracle).2.1 = bucketKeys ht ∧
    (hashtable_has_key (hashtable_add ht key e size oracle).2.1 key).1
        = (hashtable_has_key ht key).1 ∧
    (∀ k2, k2 ≠ key →
      (hashtable_lookup (hashtable_add ht key e size oracle).2.1 k2).1
        = (hashtable_lookup ht k2).1) ∧
    ((hashtable_has_key ht key).1 = true →
      (hashtable_lookup (hashtable_add ht key e size oracle).2.1 key).1 = none) := by
  by_cases hf : chainHasKey (bucketOf ht key) key = true
  · rw [add_found_fail ht key e size oracle hf hr]
    refine ⟨?_, rfl, ?_, ?_, ?_, ?_⟩
    · intro h
      exact absurd (hf.symm.trans h) (by decide : (true : Bool) ≠ false)
    · exact bucketKeys_setBucket_congr ht key _ (updateFirst_map_key _ _ _)
    · rw [hashtable_has_key_fst, hashtable_has_key_fst]
      exact chainHasKey_bucket_frame ht key key _ (chainHasKey_updateFirst _ _ _ _)
    · intro k2 hk2
      rw [hashtable_lookup_fst, hashtable_lookup_fst]
      exact chainLookup_bucket_frame ht key k2 _ (chainLookup_updateFirst_ne _ _ _ _ hk2)
    · intro _
      rw [hashtable_lookup_fst]
      by_cases hpos : 0 < ht.table.length
      · rw [bucketOf_setBucket_same ht key key _ hpos rfl]
        exact chainLookup_updateFirst_self _ _ _ hf
      · exfalso
        rw [bucketOf_of_table_nil ht key (table_nil_of_length_zero ht (by omega)),
          chainHasKey_nil] at hf
        exact Bool.false_ne_true hf
  · have hf' : chainHasKey (bucketOf ht key) key = false := Bool.eq_false_iff.mpr hf
    rw [add_notfound_fail ht key e size oracle hf' hr]
    refine ⟨fun _ => rfl, rfl, rfl, rfl, fun k2 _ => rfl, ?_⟩
    intro h
    exact absurd (h.symm.trans hf') (by decide : (true : Bool) ≠ false)

/-- C3 witness: the amended theorem applied to the owned-mode update
failure -- the key's entry survives (`has_key` still reports it) but its
stored value afterwards is `NULL`. -/
theorem add_failure_rollback_amended_witness :
    (hashtable_lookup
        (hashtable_add ((hashtable_add (hashtable_create 1 true) [97] (some 7) 1 []).2.1)
          [97] (some 9) 1 [false]).2.1 [97]).1 = none ∧
    (hashtable_has_key
        (hashtable_add ((hashtable_add (hashtable_create 1 true) [97] (some 7) 1 []).2.1)
          [97] (some 9) 1 [false]).2.1 [97]).1
      = (hashtable_has_key ((hashtable_add (hashtable_create 1 true) [97] (some 7) 1 []).2.1)
          [97]).1 :=
  ⟨(add_failure_rollback_amended _ [97] (some 9) 1 [false] (by decide)).2.2.2.2.2 (by decide),
   (add_failure_rollback_amended _ [97] (some 9) 1 [false] (by decide)).2.2.2.1⟩

/-- C5: on every non-empty table built by successful adds only,
`hashtable_get_keys` (with its array allocation succeeding) returns exactly
`count` and writes the key walk -- buckets in index order, chains in link
order; that walk has exactly `count` entries, pairwise distinct, and
contains precisely the keys the table holds; moreover a successful add of a
fresh key appends its entry at the tail of its bucket's chain, so colliding
keys appear in insertion order. -/
theorem get_keys_enumerates_distinct_keys (ht : Hashtable) (hreach : ReachableAdd ht)
    (hne : 0 < ht.count) :
    (hashtable_get_keys ht true).1 = ht.count ∧
    (hashtable_get_keys ht true).2.1 = some (some (bucketKeys ht)) ∧
    (bucketKeys ht).length = ht.count ∧
    (bucketKeys ht).Nodup ∧
    (∀ k, k ∈ bucketKeys ht ↔ (hashtable_has_key ht k).1 = true) ∧
    (∀ key e size oracle, (hashtable_has_key ht key).1 = false →
      (hashtable_add ht key e size oracle).1 = 0 →
      bucketOf (hashtable_add ht key e size oracle).2.1 key
        = bucketOf ht key ++ [{ key := key, e := e }]) := by
  obtain ⟨hc, hnd, hbo, hpos⟩ := wf_reachable ht hreach
  refine ⟨?_, ?_, hc.symm, hnd, ?_, ?_⟩
  · rw [hashtable_get_keys, if_pos hne, if_pos rfl]
  · rw [hashtable_get_keys, if_pos hne, if_pos rfl]
  · intro k
    constructor
    · intro hmem
      obtain ⟨i, _, hm⟩ := (mem_keysOfTable_iff ht.table k).mp hmem
      have hi := hbo i k hm
      rw [← hi] at hm
      exact (chainHasKey_iff _ _).mpr hm
    · intro hk
      exact mem_bucketKeys_of_hasKey ht k hpos hk
  · intro key e size oracle hk hr
    have hf : chainHasKey (bucketOf ht key) key = false := hk
    rw [add_notfound_succ ht key e size oracle hf hr, bucketOf_count_update]
    exact bucketOf_setBucket_same ht key key _ hpos rfl

/-- C5 witness: the table reached by one successful add into a fresh
2-bucket table; `hashtable_get_keys` returns its count. -/
theorem get_keys_enumerates_distinct_keys_witness :
    (hashtable_get_keys ((hashtable_add (hashtable_create 2 false) [97] (some 1) 0 []).2.1)
        true).1
      = ((hashtable_add (hashtable_create 2 false) [97] (some 1) 0 []).2.1).count :=
  (get_keys_enumerates_distinct_keys _
    (ReachableAdd.add (hashtable_create 2 false) [97] (some 1) 0 []
      (ReachableAdd.create 2 false (by decide)) (by decide))
    (by decide)).1

end CHashtable
